import Mathlib

/-!
Verification development for the wifiXX24 patient-monitor firmware core
(`src/main.cpp`): the `SimpleFIFO` bounded sample queue, the timer-ISR
sample producer `TimerHandler0`, the `debounceAndToggle` input tracker,
and the control-surface mapping in `loop`.

Conventions of the shallow embedding:
* C `int`/`unsigned long` values that stay nonnegative in every reachable
  state of the claims' scope are modelled as `Nat`.
* `uint8_t` storage is modelled by reducing stored values modulo 256.
* The fixed C array `uint8_t buffer[maxSize]` is modelled as a total map
  `Nat → Nat`; every access made by the code is at an index `< maxSize`.
  The C buffer starts uninitialized; the model starts it at the constant 0
  (no claim depends on unwritten cells).
* Fallible operations (`bool dequeue(uint8_t&)`) return an `Option`.
* `LOW` is `false`, `HIGH` is `true` (Arduino digital levels 0 / 1).
* `millis()` and `digitalRead`/`analogRead` are environment inputs and are
  passed as explicit arguments; `millis` is monotone within the scope of
  the claims (no 49-day wraparound), so unsigned subtraction coincides
  with truncated `Nat` subtraction.
-/

/-- `const int maxSize = 512;` — capacity of the FIFO buffer
(`src/main.cpp:35`). -/
def maxSize : Nat := 512

/-- `static uint8_t EKG[]` — the 32 primary-rhythm sample points
(`src/main.cpp:22`). -/
def EKG : List Nat :=
  [65, 65, 65, 65, 70, 76, 74, 70, 65, 63, 65, 65, 65, 65, 48, 230,
   40, 65, 65, 65, 74, 90, 100, 102, 100, 95, 80, 70, 65, 65, 65, 65]

/-- `static uint8_t ARY[]` — the 32 alternate-rhythm sample points
(`src/main.cpp:26`). -/
def ARY : List Nat :=
  [65, 70, 67, 61, 70, 72, 74, 76, 70, 68, 67, 65, 63, 55, 48, 10,
   15, 65, 67, 70, 74, 80, 100, 102, 100, 95, 80, 70, 65, 65, 65, 65]

/-- `static uint8_t deadPoints[]` — the 32 flatline sample points
(`src/main.cpp:30`). -/
def deadPoints : List Nat :=
  [65, 65, 65, 65, 65, 65, 65, 65, 65, 65, 65, 65, 65, 65, 65, 65,
   65, 65, 65, 65, 65, 65, 65, 65, 65, 65, 65, 65, 65, 65, 65, 65]

/-- State of `class SimpleFIFO` (`src/main.cpp:41-80`): the storage
array, the read cursor, the write cursor, and the item count. The
capacity is passed to each operation; the source fixes it to the global
constant `maxSize = 512` (the claims also discuss the capacity-C
generalization). -/
structure SimpleFIFO where
  buffer : Nat → Nat
  frontIndex : Nat
  rearIndex : Nat
  itemCount : Nat

/-- `SimpleFIFO() : frontIndex(0), rearIndex(0), itemCount(0)` — the
constructor (`src/main.cpp:44`); the uninitialized C buffer is modelled
as all zeros. -/
def SimpleFIFO.init : SimpleFIFO :=
  ⟨fun _ => 0, 0, 0, 0⟩

/-- `bool SimpleFIFO::enqueue(uint8_t data)` (`src/main.cpp:46-56`):
if `itemCount < maxSize`, store `data` at `rearIndex`, advance
`rearIndex` modulo the capacity, bump the count, and report acceptance;
otherwise report overflow and change nothing. The `uint8_t` parameter
truncates the supplied value modulo 256. -/
def SimpleFIFO.enqueue (C : Nat) (q : SimpleFIFO) (data : Nat) :
    Bool × SimpleFIFO :=
  if q.itemCount < C then
    (true,
     { buffer := Function.update q.buffer q.rearIndex (data % 256)
       frontIndex := q.frontIndex
       rearIndex := (q.rearIndex + 1) % C
       itemCount := q.itemCount + 1 })
  else
    (false, q)

/-- `bool SimpleFIFO::dequeue(uint8_t &data)` (`src/main.cpp:58-68`):
if `itemCount > 0`, yield the value at `frontIndex`, advance
`frontIndex` modulo the capacity, and decrement the count; otherwise
report underflow and change nothing. -/
def SimpleFIFO.dequeue (C : Nat) (q : SimpleFIFO) :
    Option Nat × SimpleFIFO :=
  if q.itemCount > 0 then
    (some (q.buffer q.frontIndex),
     { buffer := q.buffer
       frontIndex := (q.frontIndex + 1) % C
       rearIndex := q.rearIndex
       itemCount := q.itemCount - 1 })
  else
    (none, q)

/-- `bool SimpleFIFO::isEmpty() const` (`src/main.cpp:70-73`):
`itemCount == 0`. -/
def SimpleFIFO.isEmpty (q : SimpleFIFO) : Bool :=
  q.itemCount == 0

/-- Structural invariant of every reachable `SimpleFIFO` state at
capacity `C`: the read cursor is in range, the count never exceeds the
capacity, and the write cursor sits `itemCount` slots past the read
cursor (modulo `C`). -/
def SimpleFIFO.Wf (C : Nat) (q : SimpleFIFO) : Prop :=
  q.frontIndex < C ∧ q.itemCount ≤ C ∧
    q.rearIndex = (q.frontIndex + q.itemCount) % C

/-- Abstraction of a `SimpleFIFO` state to the list of buffered samples
in dequeue order: the `itemCount` cells starting at `frontIndex`,
wrapping modulo the capacity. -/
def SimpleFIFO.absList (C : Nat) (q : SimpleFIFO) : List Nat :=
  (List.range q.itemCount).map (fun i => q.buffer ((q.frontIndex + i) % C))

/-- One external call on a `SimpleFIFO`: an enqueue of a sample or a
dequeue. -/
inductive FifoOp where
  | enq (d : Nat)
  | deq

/-- Run a sequence of calls against a `SimpleFIFO` at capacity `C`,
returning the final state, the list of successfully enqueued values
(as the `uint8_t` values actually accepted, in call order), and the
list of successfully dequeued values (in call order). -/
def runOps (C : Nat) : List FifoOp → SimpleFIFO →
    SimpleFIFO × List Nat × List Nat
  | [], q => (q, [], [])
  | FifoOp.enq d :: ops, q =>
      let r := SimpleFIFO.enqueue C q d
      let rest := runOps C ops r.2
      (rest.1, if r.1 then d % 256 :: rest.2.1 else rest.2.1, rest.2.2)
  | FifoOp.deq :: ops, q =>
      let r := SimpleFIFO.dequeue C q
      let rest := runOps C ops r.2
      (rest.1, rest.2.1,
       match r.1 with
       | some v => v :: rest.2.2
       | none => rest.2.2)

/-- State private to the producer ISR `TimerHandler0`
(`src/main.cpp:111-141`): the tick counter `static int xbyte`, the
table cursor `static int index`, and the global FIFO `valueFifo` it
enqueues into. -/
structure ProducerState where
  xbyte : Nat
  index : Nat
  fifo : SimpleFIFO

/-- Initial producer state: `static int xbyte = 0`, `static int index = 0`,
and the freshly constructed global `valueFifo`. -/
def producerInit : ProducerState :=
  ⟨0, 0, SimpleFIFO.init⟩

/-- `bool TimerHandler0(void*)` (`src/main.cpp:111-141`): advance the
tick counter modulo `delayMillis` and return at once when it is
non-zero; otherwise advance the table cursor modulo `sizeof(EKG)` (= 32,
the element count of the `uint8_t` array) and enqueue the selected
table's entry: `deadPoints` when `isAlive` is false, else `EKG` when
`isEKG` is true, else `ARY`. The globals `isAlive`, `isEKG` and
`delayMillis` are passed as arguments. -/
def TimerHandler0 (isAlive isEKG : Bool) (delayMillis : Nat)
    (s : ProducerState) : ProducerState :=
  let xbyte := (s.xbyte + 1) % delayMillis
  if xbyte ≠ 0 then
    { s with xbyte := xbyte }
  else
    let i := (s.index + 1) % EKG.length
    let data :=
      if isAlive then
        if isEKG then EKG.getD i 0 else ARY.getD i 0
      else
        deadPoints.getD i 0
    ⟨xbyte, i, (SimpleFIFO.enqueue maxSize s.fifo data).2⟩

/-- Iterate the producer ISR `t` times with the mode flags and
`delayMillis` held fixed across the run. -/
def producerIter (isAlive isEKG : Bool) (delayMillis : Nat) :
    Nat → ProducerState → ProducerState
  | 0, s => s
  | t + 1, s =>
      TimerHandler0 isAlive isEKG delayMillis
        (producerIter isAlive isEKG delayMillis t s)

/-- State of one debounced input tracker (`src/main.cpp:90-100`): the
accepted state `buttonState`, the previous raw reading
`lastButtonState`, and the time of the last observed raw transition
`lastDebounceTime`. At startup `buttonState = false` and
`lastButtonState = LOW` (= `false`). -/
structure DebounceState where
  buttonState : Bool
  lastButtonState : Bool
  lastDebounceTime : Nat
deriving DecidableEq

/-- `unsigned long debounceDelay = 50;` (`src/main.cpp:100`). -/
def debounceDelay : Nat := 50

/-- `void debounceAndToggle(...)` (`src/main.cpp:152-179`): read the
raw pin level; when it differs from `lastButtonState`, restart the
stability timer at `millis()`; when strictly more than `delay` time
units have passed since the timer restart and the reading differs from
the accepted `buttonState`, accept it, and invert the target flag when
the newly accepted level is `LOW` (= `false`); finally record the raw
reading in `lastButtonState`. The global `debounceDelay`, the pin
reading, and `millis()` are passed as arguments; the by-reference state
and the toggled flag are returned. -/
def debounceAndToggle (delay : Nat) (reading : Bool) (now : Nat)
    (s : DebounceState) (toggleVariable : Bool) :
    DebounceState × Bool :=
  let ldt := if reading ≠ s.lastButtonState then now else s.lastDebounceTime
  if now - ldt > delay then
    if reading ≠ s.buttonState then
      (⟨reading, reading, ldt⟩,
       if reading = false then !toggleVariable else toggleVariable)
    else
      (⟨s.buttonState, reading, ldt⟩, toggleVariable)
  else
    (⟨s.buttonState, reading, ldt⟩, toggleVariable)

/-- Run the tracker over a list of polls, each a `(millis, reading)`
pair, threading the debounce state and the target flag. -/
def debounceRun (delay : Nat) (polls : List (Nat × Bool))
    (st : DebounceState × Bool) : DebounceState × Bool :=
  polls.foldl (fun acc p => debounceAndToggle delay p.2 p.1 acc.1 acc.2) st

/-- Modelled from the spec: the Arduino framework's integer `map`
routine used by `loop` (`src/main.cpp:218-220`) is not part of this
repository's sources; per the spec it is the integer-truncating linear
map of `x` from `[inMin, inMax]` onto `[outMin, outMax]`. On the
nonnegative, non-overflowing arguments used here, C `long` arithmetic
coincides with `Nat` arithmetic. -/
def arduinoMap (x inMin inMax outMin outMax : Nat) : Nat :=
  (x - inMin) * (outMax - outMin) / (inMax - inMin) + outMin

/-- The control-surface computation of `loop` (`src/main.cpp:218-220`)
from the three raw analog reads:
`amp  = map(analogRead(AMP_STICK_PIN), 0, 4095, 10, 100) / 100.0`
(the division by `100.0` is modelled exactly, in `ℚ`),
`bpm  = map(analogRead(BPM_STICK_PIN), 0, 4095, 40, 220)`,
`delayMillis = map(analogRead(BPM_STICK_PIN), 0, 4095, 9, 48)`. -/
def loopTunables (ampRead bpmRead1 bpmRead2 : Nat) : ℚ × Nat × Nat :=
  ((arduinoMap ampRead 0 4095 10 100 : ℚ) / 100,
   arduinoMap bpmRead1 0 4095 40 220,
   arduinoMap bpmRead2 0 4095 9 48)

/-- C2: enqueue on a full queue (count equal to the capacity, 512 in the
source instantiation) returns `false` and leaves the whole state —
buffer, front index, rear index and count — unchanged. -/
theorem c2_enqueue_full_rejected (C : Nat) (q : SimpleFIFO) (d : Nat)
    (h : q.itemCount = C) :
    SimpleFIFO.enqueue C q d = (false, q) := by
  simp [SimpleFIFO.enqueue, h]

theorem c2_enqueue_full_rejected_witness :
    SimpleFIFO.enqueue maxSize ⟨fun _ => 0, 0, 0, 512⟩ 7
      = (false, ⟨fun _ => 0, 0, 0, 512⟩) :=
  c2_enqueue_full_rejected maxSize ⟨fun _ => 0, 0, 0, 512⟩ 7 rfl

/-- C3: dequeue on an empty queue (count zero) returns the absent signal
and leaves the state unchanged, and `isEmpty` reports `true` exactly on
that same condition. -/
theorem c3_dequeue_empty (C : Nat) (q : SimpleFIFO) :
    (q.itemCount = 0 → SimpleFIFO.dequeue C q = (none, q)) ∧
      (SimpleFIFO.isEmpty q = true ↔ q.itemCount = 0) := by
  constructor
  · intro h
    simp [SimpleFIFO.dequeue, h]
  · simp [SimpleFIFO.isEmpty]

theorem c3_dequeue_empty_witness :
    SimpleFIFO.init.itemCount = 0 ∧
      SimpleFIFO.dequeue maxSize SimpleFIFO.init = (none, SimpleFIFO.init) :=
  ⟨rfl, (c3_dequeue_empty maxSize SimpleFIFO.init).1 rfl⟩

/-- C9: every entry of the flatline table `deadPoints` is the constant
65, so on any producer tick that reaches the enqueue step with
`isAlive = false` the enqueued sample is 65, regardless of the current
table index and of the `isEKG` mode flag. -/
theorem c9_flatline_constant :
    (∀ i, i < 32 → deadPoints.getD i 0 = 65) ∧
      ∀ (ekg : Bool) (N : Nat) (s : ProducerState),
        (s.xbyte + 1) % N = 0 →
          (TimerHandler0 false ekg N s).fifo
            = (SimpleFIFO.enqueue maxSize s.fifo 65).2 := by
  refine ⟨by decide, ?_⟩
  intro ekg N s hp
  have hlen : EKG.length = 32 := by decide
  have hlt : (s.index + 1) % EKG.length < 32 := by
    rw [hlen]; exact Nat.mod_lt _ (by decide)
  have hval : deadPoints.getD ((s.index + 1) % EKG.length) 0 = 65 := by
    revert hlt
    generalize (s.index + 1) % EKG.length = j
    revert j
    decide
  rw [List.getD_eq_getElem?_getD] at hval
  simp [TimerHandler0, hp, hval]

theorem c9_flatline_constant_witness :
    ((0 : Nat) + 1) % 1 = 0 ∧
      (TimerHandler0 false true 1 producerInit).fifo
        = (SimpleFIFO.enqueue maxSize producerInit.fifo 65).2 :=
  ⟨by decide, c9_flatline_constant.2 true 1 producerInit (by decide)⟩

/-- C10: the three waveform tables each have exactly 32 entries, the
producer's table cursor starts below 32 and stays below 32 across every
invocation, and the cursor value used for the table access on an
enqueueing tick, `(index + 1) % sizeof(EKG)`, is always in bounds for
the 32-entry tables. -/
theorem c10_table_access_in_bounds :
    EKG.length = 32 ∧ ARY.length = 32 ∧ deadPoints.length = 32 ∧
      producerInit.index < 32 ∧
      (∀ (alive ekg : Bool) (N : Nat) (s : ProducerState),
        s.index < 32 → (TimerHandler0 alive ekg N s).index < 32) ∧
      ∀ i : Nat, (i + 1) % EKG.length < EKG.length := by
  refine ⟨by decide, by decide, by decide, by decide, ?_, ?_⟩
  · intro alive ekg N s h
    by_cases hx : (s.xbyte + 1) % N = 0
    · have hlen : EKG.length = 32 := by decide
      simp [TimerHandler0, hx, hlen]
      exact Nat.mod_lt _ (by decide)
    · simpa [TimerHandler0, hx] using h
  · intro i
    exact Nat.mod_lt _ (by decide)

theorem c10_table_access_in_bounds_witness :
    producerInit.index < 32 ∧
      (TimerHandler0 true true 9 producerInit).index < 32 :=
  ⟨by decide,
   c10_table_access_in_bounds.2.2.2.2.1 true true 9 producerInit (by decide)⟩

theorem SimpleFIFO.wf_init (C : Nat) (hC : 0 < C) : SimpleFIFO.init.Wf C := by
  refine ⟨hC, Nat.zero_le _, ?_⟩
  simp [SimpleFIFO.init]

theorem SimpleFIFO.absList_init (C : Nat) : SimpleFIFO.init.absList C = [] := by
  simp [SimpleFIFO.absList, SimpleFIFO.init]

theorem SimpleFIFO.enqueue_spec (C : Nat) (q : SimpleFIFO) (d : Nat)
    (hw : q.Wf C) (h : q.itemCount < C) :
    (q.enqueue C d).1 = true ∧ (q.enqueue C d).2.Wf C ∧
      (q.enqueue C d).2.absList C = q.absList C ++ [d % 256] := by
  obtain ⟨hf, hc, hr⟩ := hw
  refine ⟨by simp [SimpleFIFO.enqueue, h], ⟨?_, ?_, ?_⟩, ?_⟩
  · simpa [SimpleFIFO.enqueue, h] using hf
  · simp only [SimpleFIFO.enqueue, h, if_true]
    omega
  · simp only [SimpleFIFO.enqueue, h, if_true]
    rw [hr, Nat.mod_add_mod, Nat.add_assoc]
  · simp only [SimpleFIFO.enqueue, h, if_true, SimpleFIFO.absList,
      List.range_succ, List.map_append, List.map_cons, List.map_nil]
    congr 1
    · apply List.map_congr_left
      intro i hi
      have hiC : i < q.itemCount := List.mem_range.mp hi
      apply Function.update_noteq
      intro hcontra
      rw [hr] at hcontra
      have hmod : i % C = q.itemCount % C :=
        Nat.ModEq.add_left_cancel' q.frontIndex hcontra
      rw [Nat.mod_eq_of_lt (Nat.lt_trans hiC h), Nat.mod_eq_of_lt h] at hmod
      exact absurd hmod (Nat.ne_of_lt hiC)
    · rw [← hr]
      simp [Function.update_same]

theorem SimpleFIFO.dequeue_spec (C : Nat) (hC : 0 < C) (q : SimpleFIFO)
    (hw : q.Wf C) (h : 0 < q.itemCount) :
    (q.dequeue C).1 = some (q.buffer q.frontIndex) ∧ (q.dequeue C).2.Wf C ∧
      q.absList C = q.buffer q.frontIndex :: (q.dequeue C).2.absList C := by
  obtain ⟨hf, hc, hr⟩ := hw
  obtain ⟨k, hk⟩ : ∃ k, q.itemCount = k + 1 :=
    ⟨q.itemCount - 1, (Nat.succ_pred_eq_of_pos h).symm⟩
  refine ⟨by simp [SimpleFIFO.dequeue, h], ⟨?_, ?_, ?_⟩, ?_⟩
  · simp only [SimpleFIFO.dequeue, h, if_true]
    exact Nat.mod_lt _ hC
  · simp only [SimpleFIFO.dequeue, h, if_true]
    exact Nat.le_trans (Nat.sub_le _ _) hc
  · simp only [SimpleFIFO.dequeue, h, if_true]
    rw [hr, hk, Nat.mod_add_mod]
    congr 1
    omega
  · have hstep : (q.dequeue C).2 =
        ⟨q.buffer, (q.frontIndex + 1) % C, q.rearIndex, q.itemCount - 1⟩ := by
      simp [SimpleFIFO.dequeue, h]
    rw [hstep]
    simp only [SimpleFIFO.absList, hk, Nat.add_sub_cancel]
    rw [List.range_succ_eq_map, List.map_cons, List.map_map]
    congr 1
    · rw [Nat.add_zero, Nat.mod_eq_of_lt hf]
    · apply List.map_congr_left
      intro i hi
      simp only [Function.comp_apply]
      rw [Nat.mod_add_mod]
      congr 2
      omega

theorem runOps_spec (C : Nat) (hC : 0 < C) (ops : List FifoOp) :
    ∀ q : SimpleFIFO, q.Wf C →
      (runOps C ops q).1.Wf C ∧
        ∃ rest, q.absList C ++ (runOps C ops q).2.1
                  = (runOps C ops q).2.2 ++ rest := by
  induction ops with
  | nil =>
      intro q hw
      exact ⟨hw, q.absList C, by simp [runOps]⟩
  | cons op ops ih =>
      intro q hw
      cases op with
      | enq d =>
          by_cases h : q.itemCount < C
          · obtain ⟨h1, h2, h3⟩ := SimpleFIFO.enqueue_spec C q d hw h
            obtain ⟨hwf, rest, hrest⟩ := ih _ h2
            refine ⟨by simpa [runOps] using hwf, rest, ?_⟩
            simp only [runOps, h1, if_true]
            calc q.absList C ++ d % 256 ::
                    (runOps C ops (q.enqueue C d).2).2.1
                = (q.absList C ++ [d % 256]) ++
                    (runOps C ops (q.enqueue C d).2).2.1 := by simp
              _ = (q.enqueue C d).2.absList C ++
                    (runOps C ops (q.enqueue C d).2).2.1 := by rw [h3]
              _ = (runOps C ops (q.enqueue C d).2).2.2 ++ rest := hrest
          · have heq : q.enqueue C d = (false, q) := by
              simp [SimpleFIFO.enqueue, h]
            obtain ⟨hwf, rest, hrest⟩ := ih q hw
            refine ⟨?_, rest, ?_⟩
            · simpa [runOps, heq] using hwf
            · simpa [runOps, heq] using hrest
      | deq =>
          by_cases h : 0 < q.itemCount
          · obtain ⟨h1, h2, h3⟩ := SimpleFIFO.dequeue_spec C hC q hw h
            obtain ⟨hwf, rest, hrest⟩ := ih _ h2
            refine ⟨by simpa [runOps] using hwf, rest, ?_⟩
            simp only [runOps, h1]
            rw [h3, List.cons_append, List.cons_append, hrest]
          · have heq : q.dequeue C = (none, q) := by
              simp [SimpleFIFO.dequeue, h]
            obtain ⟨hwf, rest, hrest⟩ := ih q hw
            refine ⟨?_, rest, ?_⟩
            · simpa [runOps, heq] using hwf
            · simpa [runOps, heq] using hrest

/-- C1: for every sequence of enqueue/dequeue calls starting from the
constructed queue, the reported item count stays in `[0, C]` for the
capacity-C generalization — in particular in `[0, 512]` for the source's
`maxSize` instantiation (the lower bound 0 is inherent in the `Nat`
count) — and the successfully dequeued values are an initial segment of
the successfully enqueued values, hence appear in exactly the
producer-enqueue (FIFO) order. -/
theorem c1_count_bounded_fifo_order (C : Nat) (hC : 0 < C)
    (ops : List FifoOp) :
    (runOps C ops SimpleFIFO.init).1.itemCount ≤ C ∧
      (runOps maxSize ops SimpleFIFO.init).1.itemCount ≤ 512 ∧
      (∃ rest, (runOps C ops SimpleFIFO.init).2.1
                 = (runOps C ops SimpleFIFO.init).2.2 ++ rest) := by
  have h1 := runOps_spec C hC ops SimpleFIFO.init (SimpleFIFO.wf_init C hC)
  have h2 := runOps_spec maxSize (by decide) ops SimpleFIFO.init
    (SimpleFIFO.wf_init maxSize (by decide))
  obtain ⟨⟨_, hc1, _⟩, rest, hrest⟩ := h1
  obtain ⟨⟨_, hc2, _⟩, _⟩ := h2
  rw [SimpleFIFO.absList_init, List.nil_append] at hrest
  exact ⟨hc1, hc2, rest, hrest⟩

theorem c1_count_bounded_fifo_order_witness :
    0 < maxSize ∧
      ((runOps maxSize [FifoOp.enq 7, FifoOp.enq 9, FifoOp.deq]
          SimpleFIFO.init).1.itemCount ≤ maxSize ∧
        (runOps maxSize [FifoOp.enq 7, FifoOp.enq 9, FifoOp.deq]
          SimpleFIFO.init).1.itemCount ≤ 512 ∧
        ∃ rest, (runOps maxSize [FifoOp.enq 7, FifoOp.enq 9, FifoOp.deq]
                  SimpleFIFO.init).2.1
                = (runOps maxSize [FifoOp.enq 7, FifoOp.enq 9, FifoOp.deq]
                    SimpleFIFO.init).2.2 ++ rest) :=
  ⟨by decide,
   c1_count_bounded_fifo_order maxSize (by decide)
     [FifoOp.enq 7, FifoOp.enq 9, FifoOp.deq]⟩

theorem tableBytes : ∀ j, j < 32 →
    EKG.getD j 0 < 256 ∧ ARY.getD j 0 < 256 ∧ deadPoints.getD j 0 < 256 := by
  decide

/-- C4: on every producer tick that reaches the enqueue step (tick
counter wrapped to zero), the table cursor advances cyclically modulo
the table length 32, and the sample appended to the queue is the
Flatline (`deadPoints`) entry at the current cursor when `isAlive` is
false (regardless of `isEKG`), the Alternate (`ARY`) entry when
`isAlive` holds and `isEKG` is false, and the Primary (`EKG`) entry when
both flags hold. -/
theorem c4_waveform_selection (alive ekg : Bool) (N : Nat)
    (s : ProducerState) (hw : s.fifo.Wf maxSize)
    (hroom : s.fifo.itemCount < maxSize)
    (hp : (s.xbyte + 1) % N = 0) :
    (TimerHandler0 alive ekg N s).index = (s.index + 1) % 32 ∧
      (alive = false →
        (TimerHandler0 alive ekg N s).fifo.absList maxSize
          = s.fifo.absList maxSize
              ++ [deadPoints.getD ((s.index + 1) % 32) 0]) ∧
      (alive = true → ekg = false →
        (TimerHandler0 alive ekg N s).fifo.absList maxSize
          = s.fifo.absList maxSize ++ [ARY.getD ((s.index + 1) % 32) 0]) ∧
      (alive = true → ekg = true →
        (TimerHandler0 alive ekg N s).fifo.absList maxSize
          = s.fifo.absList maxSize ++ [EKG.getD ((s.index + 1) % 32) 0]) := by
  have hlen : EKG.length = 32 := rfl
  have hi : (s.index + 1) % 32 < 32 := Nat.mod_lt _ (by decide)
  refine ⟨by simp [TimerHandler0, hp, hlen], ?_, ?_, ?_⟩
  · intro ha
    subst ha
    have hstep : (TimerHandler0 false ekg N s).fifo
        = (SimpleFIFO.enqueue maxSize s.fifo
            (deadPoints.getD ((s.index + 1) % 32) 0)).2 := by
      simp [TimerHandler0, hp, hlen]
    rw [hstep, (SimpleFIFO.enqueue_spec maxSize s.fifo _ hw hroom).2.2,
        Nat.mod_eq_of_lt (tableBytes _ hi).2.2]
  · intro ha he
    subst ha
    subst he
    have hstep : (TimerHandler0 true false N s).fifo
        = (SimpleFIFO.enqueue maxSize s.fifo
            (ARY.getD ((s.index + 1) % 32) 0)).2 := by
      simp [TimerHandler0, hp, hlen]
    rw [hstep, (SimpleFIFO.enqueue_spec maxSize s.fifo _ hw hroom).2.2,
        Nat.mod_eq_of_lt (tableBytes _ hi).2.1]
  · intro ha he
    subst ha
    subst he
    have hstep : (TimerHandler0 true true N s).fifo
        = (SimpleFIFO.enqueue maxSize s.fifo
            (EKG.getD ((s.index + 1) % 32) 0)).2 := by
      simp [TimerHandler0, hp, hlen]
    rw [hstep, (SimpleFIFO.enqueue_spec maxSize s.fifo _ hw hroom).2.2,
        Nat.mod_eq_of_lt (tableBytes _ hi).1]

theorem c4_waveform_selection_witness :
    producerInit.fifo.itemCount < maxSize ∧
      (producerInit.xbyte + 1) % 1 = 0 ∧
      (TimerHandler0 false true 1 producerInit).index
        = (producerInit.index + 1) % 32 :=
  ⟨by decide, by decide,
   (c4_waveform_selection false true 1 producerInit
      (SimpleFIFO.wf_init maxSize (by decide)) (by decide) (by decide)).1⟩

theorem TimerHandler0_xbyte (alive ekg : Bool) (N : Nat)
    (s : ProducerState) :
    (TimerHandler0 alive ekg N s).xbyte = (s.xbyte + 1) % N := by
  by_cases h : (s.xbyte + 1) % N = 0
  · simp [TimerHandler0, h]
  · simp [TimerHandler0, h]

theorem producerIter_xbyte (alive ekg : Bool) (N : Nat)
    (s : ProducerState) (hN : 0 < N) (hx : s.xbyte < N) :
    ∀ t, (producerIter alive ekg N t s).xbyte = (s.xbyte + t) % N
  | 0 => by simp [producerIter, Nat.mod_eq_of_lt hx]
  | t + 1 => by
      rw [producerIter, TimerHandler0_xbyte,
          producerIter_xbyte alive ekg N s hN hx t, Nat.mod_add_mod,
          Nat.add_assoc]

/-- C5: with the tick-skip divisor held constant at `N ≥ 1` across a run
of periodic invocations (from any reachable tick-counter value, i.e. one
below `N`), every window of `N` consecutive invocations contains exactly
one invocation whose tick counter wraps to zero — the one that proceeds
to the table-index advance and enqueue attempt — and every invocation
whose counter does not wrap returns immediately, changing nothing but
its private tick counter (in particular neither the queue nor the table
index). -/
theorem c5_tick_skip_decimation (alive ekg : Bool) (N : Nat)
    (s : ProducerState) (t0 : Nat) (hN : 0 < N) (hx : s.xbyte < N) :
    (∃! j, j < N ∧
        ((producerIter alive ekg N (t0 + j) s).xbyte + 1) % N = 0) ∧
      ∀ t, ((producerIter alive ekg N t s).xbyte + 1) % N ≠ 0 →
        producerIter alive ekg N (t + 1) s
          = { producerIter alive ekg N t s with
              xbyte := ((producerIter alive ekg N t s).xbyte + 1) % N } := by
  constructor
  · have hcond : ∀ j,
        (((producerIter alive ekg N (t0 + j) s).xbyte + 1) % N = 0)
          ↔ (s.xbyte + t0 + j + 1) % N = 0 := by
      intro j
      rw [producerIter_xbyte alive ekg N s hN hx (t0 + j), Nat.mod_add_mod]
      constructor
      · intro h
        rw [← h]
        congr 1
        omega
      · intro h
        rw [← h]
        congr 1
        omega
    have huniq : ∀ j1 j2, j1 < N → j2 < N →
        (s.xbyte + t0 + j1 + 1) % N = 0 →
        (s.xbyte + t0 + j2 + 1) % N = 0 → j1 = j2 := by
      intro j1 j2 h1 h2 hc1 hc2
      have hd1 := Nat.dvd_of_mod_eq_zero hc1
      have hd2 := Nat.dvd_of_mod_eq_zero hc2
      rcases Nat.le_total j1 j2 with hle | hle
      · have hd := Nat.dvd_sub' hd2 hd1
        have heq : s.xbyte + t0 + j2 + 1 - (s.xbyte + t0 + j1 + 1)
            = j2 - j1 := by omega
        rw [heq] at hd
        have := Nat.eq_zero_of_dvd_of_lt hd
        omega
      · have hd := Nat.dvd_sub' hd1 hd2
        have heq : s.xbyte + t0 + j1 + 1 - (s.xbyte + t0 + j2 + 1)
            = j1 - j2 := by omega
        rw [heq] at hd
        have := Nat.eq_zero_of_dvd_of_lt hd
        omega
    have hm : (s.xbyte + t0 + 1) % N < N := Nat.mod_lt _ hN
    have hj0 : (N - (s.xbyte + t0 + 1) % N) % N < N := Nat.mod_lt _ hN
    have hc0 : (s.xbyte + t0 + (N - (s.xbyte + t0 + 1) % N) % N + 1) % N
        = 0 := by
      have hq := Nat.div_add_mod (s.xbyte + t0 + 1) N
      by_cases h0 : (s.xbyte + t0 + 1) % N = 0
      · rw [h0, Nat.sub_zero, Nat.mod_self]
        have hid : s.xbyte + t0 + 0 + 1
            = N * ((s.xbyte + t0 + 1) / N) := by
          generalize N * ((s.xbyte + t0 + 1) / N) = P at hq ⊢
          omega
        rw [hid, Nat.mul_mod_right]
      · have hlt : N - (s.xbyte + t0 + 1) % N < N :=
          Nat.sub_lt hN (Nat.pos_of_ne_zero h0)
        rw [Nat.mod_eq_of_lt hlt]
        have hid : s.xbyte + t0 + (N - (s.xbyte + t0 + 1) % N) + 1
            = N * ((s.xbyte + t0 + 1) / N + 1) := by
          rw [Nat.mul_succ]
          generalize hP : N * ((s.xbyte + t0 + 1) / N) = P at hq ⊢
          generalize hM : (s.xbyte + t0 + 1) % N = M at hq hm ⊢
          omega
        rw [hid, Nat.mul_mod_right]
    refine ⟨(N - (s.xbyte + t0 + 1) % N) % N,
        ⟨hj0, (hcond _).mpr hc0⟩, ?_⟩
    intro j1 hj1
    exact huniq j1 _ hj1.1 hj0 ((hcond _).mp hj1.2) hc0
  · intro t h
    rw [producerIter]
    rw [show TimerHandler0 alive ekg N (producerIter alive ekg N t s)
        = { producerIter alive ekg N t s with
            xbyte := ((producerIter alive ekg N t s).xbyte + 1) % N } from
      by simp [TimerHandler0, h]]

theorem c5_tick_skip_decimation_witness :
    (0 : Nat) < 9 ∧ producerInit.xbyte < 9 ∧
      ((∃! j, j < 9 ∧
          ((producerIter true true 9 (0 + j) producerInit).xbyte + 1) % 9
            = 0) ∧
        ∀ t, ((producerIter true true 9 t producerInit).xbyte + 1) % 9
            ≠ 0 →
          producerIter true true 9 (t + 1) producerInit
            = { producerIter true true 9 t producerInit with
                xbyte :=
                  ((producerIter true true 9 t producerInit).xbyte + 1)
                    % 9 }) :=
  ⟨by decide, by decide,
   c5_tick_skip_decimation true true 9 producerInit 0 (by decide)
     (by decide)⟩

theorem debounce_transition (delay : Nat) (b0 b tv : Bool) (ldt0 τ : Nat)
    (hb : b ≠ b0) :
    debounceAndToggle delay b τ ⟨b0, b0, ldt0⟩ tv = (⟨b0, b, τ⟩, tv) := by
  simp [debounceAndToggle, hb]

theorem debounce_hold (delay : Nat) (b0 b tv : Bool) (τ t : Nat)
    (ht : t - τ ≤ delay) :
    debounceAndToggle delay b t ⟨b0, b, τ⟩ tv = (⟨b0, b, τ⟩, tv) := by
  simp [debounceAndToggle, Nat.not_lt.mpr ht]

theorem debounce_accept (delay : Nat) (b0 b tv : Bool) (τ t : Nat)
    (hb : b ≠ b0) (ht : delay < t - τ) :
    debounceAndToggle delay b t ⟨b0, b, τ⟩ tv
      = (⟨b, b, τ⟩, if b = false then !tv else tv) := by
  simp [debounceAndToggle, ht, hb]

theorem debounce_stable (delay : Nat) (b tv : Bool) (τ t : Nat) :
    debounceAndToggle delay b t ⟨b, b, τ⟩ tv = (⟨b, b, τ⟩, tv) := by
  by_cases h : delay < t - τ
  · simp [debounceAndToggle, h]
  · simp [debounceAndToggle, h]

theorem debounceRun_hold (delay : Nat) (b0 b tv : Bool) (τ : Nat) :
    ∀ pre : List Nat, (∀ t ∈ pre, t - τ ≤ delay) →
      debounceRun delay (pre.map fun t => (t, b)) (⟨b0, b, τ⟩, tv)
        = (⟨b0, b, τ⟩, tv)
  | [], _ => rfl
  | t :: pre, h => by
      have hcons : debounceRun delay ((t :: pre).map fun u => (u, b))
          (⟨b0, b, τ⟩, tv)
          = debounceRun delay (pre.map fun u => (u, b))
              (debounceAndToggle delay b t ⟨b0, b, τ⟩ tv) := rfl
      rw [hcons, debounce_hold delay b0 b tv τ t (h t (by simp)),
          debounceRun_hold delay b0 b tv τ pre
            (fun u hu => h u (by simp [hu]))]

theorem debounceRun_stable (delay : Nat) (b tv : Bool) (τ : Nat) :
    ∀ post : List Nat,
      debounceRun delay (post.map fun t => (t, b)) (⟨b, b, τ⟩, tv)
        = (⟨b, b, τ⟩, tv)
  | [] => rfl
  | t :: post => by
      have hcons : debounceRun delay ((t :: post).map fun u => (u, b))
          (⟨b, b, τ⟩, tv)
          = debounceRun delay (post.map fun u => (u, b))
              (debounceAndToggle delay b t ⟨b, b, τ⟩ tv) := rfl
      rw [hcons, debounce_stable delay b tv τ t,
          debounceRun_stable delay b tv τ post]

theorem debounceRun_append (delay : Nat) (l1 l2 : List (Nat × Bool))
    (st : DebounceState × Bool) :
    debounceRun delay (l1 ++ l2) st
      = debounceRun delay l2 (debounceRun delay l1 st) := by
  simp [debounceRun]

theorem debounce_held_press (delay : Nat) (b0 b tv : Bool)
    (ldt0 τ tAcc : Nat) (pre post : List Nat) (hb : b ≠ b0)
    (hpre : ∀ t ∈ pre, t - τ ≤ delay) (hacc : delay < tAcc - τ) :
    debounceRun delay ((τ :: pre).map fun t => (t, b))
        (⟨b0, b0, ldt0⟩, tv)
      = (⟨b0, b, τ⟩, tv) ∧
    debounceRun delay (((τ :: pre) ++ [tAcc]).map fun t => (t, b))
        (⟨b0, b0, ldt0⟩, tv)
      = (⟨b, b, τ⟩, if b = false then !tv else tv) ∧
    debounceRun delay (((τ :: pre) ++ [tAcc] ++ post).map fun t => (t, b))
        (⟨b0, b0, ldt0⟩, tv)
      = (⟨b, b, τ⟩, if b = false then !tv else tv) := by
  have h1 : debounceRun delay ((τ :: pre).map fun t => (t, b))
      (⟨b0, b0, ldt0⟩, tv) = (⟨b0, b, τ⟩, tv) := by
    have hcons : debounceRun delay ((τ :: pre).map fun u => (u, b))
        (⟨b0, b0, ldt0⟩, tv)
        = debounceRun delay (pre.map fun u => (u, b))
            (debounceAndToggle delay b τ ⟨b0, b0, ldt0⟩ tv) := rfl
    rw [hcons, debounce_transition delay b0 b tv ldt0 τ hb,
        debounceRun_hold delay b0 b tv τ pre hpre]
  have h2 : debounceRun delay (((τ :: pre) ++ [tAcc]).map fun t => (t, b))
      (⟨b0, b0, ldt0⟩, tv)
      = (⟨b, b, τ⟩, if b = false then !tv else tv) := by
    rw [List.map_append, debounceRun_append, h1]
    exact debounce_accept delay b0 b tv τ tAcc hb hacc
  refine ⟨h1, h2, ?_⟩
  rw [List.map_append, debounceRun_append, h2]
  exact debounceRun_stable delay b _ τ post

/-- C6 (amended): if the raw reading transitions to a new level `b` at a
poll at time `τ` and is then held at `b`, the tracker's stable
`buttonState` is still the old level after every poll whose elapsed time
since the transition is at most `debounceDelay`, becomes `b` at the
first poll whose elapsed time is strictly greater than `debounceDelay`
(the source compares with `>`, not `≥`), and that acceptance happens
exactly once for the transition: later polls at the held level change
nothing at all. -/
theorem c6_debounce_acceptance (delay : Nat) (b0 b tv : Bool)
    (ldt0 τ tAcc : Nat) (pre post : List Nat) (hb : b ≠ b0)
    (hpre : ∀ t ∈ pre, t - τ ≤ delay) (hacc : delay < tAcc - τ) :
    (debounceRun delay ((τ :: pre).map fun t => (t, b))
        (⟨b0, b0, ldt0⟩, tv)).1.buttonState = b0 ∧
    (debounceRun delay (((τ :: pre) ++ [tAcc]).map fun t => (t, b))
        (⟨b0, b0, ldt0⟩, tv)).1.buttonState = b ∧
    debounceRun delay (((τ :: pre) ++ [tAcc] ++ post).map fun t => (t, b))
        (⟨b0, b0, ldt0⟩, tv)
      = debounceRun delay (((τ :: pre) ++ [tAcc]).map fun t => (t, b))
          (⟨b0, b0, ldt0⟩, tv) := by
  obtain ⟨h1, h2, h3⟩ :=
    debounce_held_press delay b0 b tv ldt0 τ tAcc pre post hb hpre hacc
  exact ⟨by rw [h1], by rw [h2], by rw [h3, h2]⟩

/-- C6 counterexample against the claim as stated: from the startup
tracker state, the raw reading flips LOW→HIGH at the poll at `t = 0` and
is held; the poll at `t = 50` has elapsed time `50 ≥ debounceDelay`, yet
the stable state has NOT become the new level there, because the source
requires elapsed time strictly greater than `debounceDelay`. -/
theorem c6_counterexample :
    ¬ ((debounceRun debounceDelay [(0, true), (50, true)]
        (⟨false, false, 0⟩, true)).1.buttonState = true) := by
  decide

theorem c6_debounce_acceptance_witness :
    (false ≠ true) ∧ (∀ t ∈ [30], t - 0 ≤ debounceDelay) ∧
      debounceDelay < 51 - 0 ∧
      (debounceRun debounceDelay
          (((0 :: [30]) ++ [51]).map fun t => (t, false))
          (⟨true, true, 0⟩, true)).1.buttonState = false :=
  ⟨by decide, by decide, by decide,
   (c6_debounce_acceptance debounceDelay true false true 0 0 51 [30] [60]
      (by decide) (by decide) (by decide)).2.1⟩

/-- C7: a press — a transition to the active LOW (= `false`) level from
the accepted HIGH state — sustained across arbitrarily many polls
spanning the debounce window inverts the target flag exactly once (the
final flag is `!tv`, not toggled once per poll, and it is untouched
before acceptance); a poll reading the released HIGH level never inverts
the flag; and `lastButtonState` is updated to the latest raw reading on
every poll regardless of acceptance. -/
theorem c7_press_toggles_once (delay : Nat) (tv : Bool)
    (ldt0 τ tAcc : Nat) (pre post : List Nat)
    (hpre : ∀ t ∈ pre, t - τ ≤ delay) (hacc : delay < tAcc - τ) :
    (debounceRun delay (((τ :: pre) ++ [tAcc] ++ post).map
        fun t => (t, false)) (⟨true, true, ldt0⟩, tv)).2 = !tv ∧
    (debounceRun delay ((τ :: pre).map fun t => (t, false))
        (⟨true, true, ldt0⟩, tv)).2 = tv ∧
    (∀ (s : DebounceState) (tv2 : Bool) (now : Nat),
      (debounceAndToggle delay true now s tv2).2 = tv2) ∧
    (∀ (s : DebounceState) (tv2 r : Bool) (now : Nat),
      (debounceAndToggle delay r now s tv2).1.lastButtonState = r) := by
  obtain ⟨h1, h2, h3⟩ :=
    debounce_held_press delay true false tv ldt0 τ tAcc pre post
      (by simp) hpre hacc
  refine ⟨by rw [h3]; simp, by rw [h1], ?_, ?_⟩
  · intro s tv2 now
    simp only [debounceAndToggle]
    repeat' split
    all_goals simp_all
  · intro s tv2 r now
    simp only [debounceAndToggle]
    repeat' split
    all_goals rfl

theorem c7_press_toggles_once_witness :
    (∀ t ∈ [30], t - 0 ≤ debounceDelay) ∧ debounceDelay < 51 - 0 ∧
      (debounceRun debounceDelay
          (((0 :: [30]) ++ [51] ++ [60, 70, 200]).map fun t => (t, false))
          (⟨true, true, 0⟩, true)).2 = !true :=
  ⟨by decide, by decide,
   (c7_press_toggles_once debounceDelay true 0 0 51 [30] [60, 70, 200]
      (by decide) (by decide)).1⟩

/-- C8: for raw analog readings in `[0, 4095]`, the control-surface
mapping computed each `loop` iteration yields an amplitude factor in
`[0.10, 1.00]` (the float division by `100.0` modelled exactly in `ℚ`),
a target rate in `[40, 220]`, and a tick-skip divisor in `[9, 48]`, each
by the integer-truncating linear map `arduinoMap` onto the stated range,
with the endpoint readings 0 and 4095 mapping exactly onto the range
endpoints. -/
theorem c8_control_surface_mapping (a b1 b2 : Nat) (ha : a ≤ 4095)
    (hb1 : b1 ≤ 4095) (hb2 : b2 ≤ 4095) :
    ((1 : ℚ)/10 ≤ (loopTunables a b1 b2).1 ∧ (loopTunables a b1 b2).1 ≤ 1) ∧
      (40 ≤ (loopTunables a b1 b2).2.1 ∧ (loopTunables a b1 b2).2.1 ≤ 220) ∧
      (9 ≤ (loopTunables a b1 b2).2.2 ∧ (loopTunables a b1 b2).2.2 ≤ 48) ∧
      (loopTunables 0 0 0).1 = 1/10 ∧ (loopTunables 4095 4095 4095).1 = 1 ∧
      (loopTunables 0 0 0).2.1 = 40 ∧
      (loopTunables 4095 4095 4095).2.1 = 220 ∧
      (loopTunables 0 0 0).2.2 = 9 ∧
      (loopTunables 4095 4095 4095).2.2 = 48 := by
  have hA : 10 ≤ arduinoMap a 0 4095 10 100
      ∧ arduinoMap a 0 4095 10 100 ≤ 100 := by
    unfold arduinoMap
    omega
  have hB : 40 ≤ arduinoMap b1 0 4095 40 220
      ∧ arduinoMap b1 0 4095 40 220 ≤ 220 := by
    unfold arduinoMap
    omega
  have hD : 9 ≤ arduinoMap b2 0 4095 9 48
      ∧ arduinoMap b2 0 4095 9 48 ≤ 48 := by
    unfold arduinoMap
    omega
  simp only [loopTunables]
  refine ⟨⟨?_, ?_⟩, hB, hD, ?_, ?_, ?_, ?_, ?_, ?_⟩
  · rw [show (1 : ℚ)/10 = 10/100 by norm_num]
    gcongr
    exact_mod_cast hA.1
  · rw [show (1 : ℚ) = 100/100 by norm_num]
    gcongr
    exact_mod_cast hA.2
  · norm_num [arduinoMap]
  · norm_num [arduinoMap]
  · norm_num [arduinoMap]
  · norm_num [arduinoMap]
  · norm_num [arduinoMap]
  · norm_num [arduinoMap]

theorem c8_control_surface_mapping_witness :
    (4095 : Nat) ≤ 4095 ∧
      (1 : ℚ)/10 ≤ (loopTunables 4095 4095 4095).1 :=
  ⟨by decide,
   (c8_control_surface_mapping 4095 4095 4095 (by decide) (by decide)
      (by decide)).1.1⟩
